import Mathlib

/-!
# Binlog collector (`cmd/pitr/collector/collector.go`)

A shallow embedding of the point-in-time-recovery binlog collector.

Modelling conventions.

* Go strings and byte slices are sequences of bytes.  They are embedded as Lean
  strings / lists of characters, one character per byte.  The code only
  concatenates them, compares them, tests them for emptiness and strips `'\n'`.
* A Go `error` result is an `Option GoError`; `none` is `nil`.
* Stateful code is a function `State → Option GoError × State`.  The state holds
  the collector's fields, the set of existing filesystem paths, the content of
  the object storage, and the trace of the external calls made so far.
* Everything the collector does not control (database answers, failures of
  system calls, of the export process and of the storage) is read from a
  `World`.  Failure oracles receive the current length of the trace, so the same
  call may succeed once and fail later.
-/

namespace collector

/-! ## Errors -/

/-- A Go error value: its message and the code `minio.ToErrorResponse` reports
for it (the empty string when the error is not a storage error response). -/
structure GoError where
  msg : String
  code : String
deriving DecidableEq

/-- Embedding of `errors.Wrap(err, message)`: the message is prefixed, and the wrapped value
is no longer a storage error response. -/
def Wrap (err : GoError) (message : String) : GoError :=
  { msg := message ++ ": " ++ err.msg, code := "" }

/-! ## Byte slices, streams and `bytes.Buffer` -/

/-- A Go `[]byte`: `none` is the `nil` slice, `some []` an empty non-nil slice. -/
abbrev Bytes := Option (List Char)

/-- The conversion `string(b)`. -/
def Bytes.toString : Bytes → String
  | none => ""
  | some d => String.mk d

/-- Embedding of `bytes.TrimRight(s, cutset)`: all trailing bytes contained in `cutset` are
sliced off; a `nil` slice stays `nil`. -/
def bytes_TrimRight (s : Bytes) (cutset : String) : Bytes :=
  match s with
  | none => none
  | some d => some (d.reverse.dropWhile (fun ch => cutset.data.contains ch)).reverse

/-- An `io.Reader` as seen by a consumer that reads it to the end: the bytes it
delivers and the condition that ends it (`none` is a clean end of file). -/
structure Stream where
  data : List Char
  err : Option GoError

/-- Embedding of `ioutil.ReadAll`: the bytes read before the stream ended, together with the
error that ended it.  The result slice is the content of a buffer that was
grown before the first read, hence never `nil`, also when nothing was read. -/
def ioutil_ReadAll (r : Stream) : Bytes × Option GoError :=
  (some r.data, r.err)

/-- A `bytes.Buffer`: the underlying bytes and the read offset. -/
structure Buffer where
  buf : List Char
  off : Nat

/-- The zero value `var setBuffer bytes.Buffer`. -/
def Buffer.zero : Buffer := { buf := [], off := 0 }

/-- Embedding of `Buffer.WriteString`: appends to the buffer. -/
def Buffer.WriteString (b : Buffer) (s : String) : Buffer :=
  { b with buf := b.buf ++ s.data }

/-- Embedding of `Buffer.Len`: the number of unread bytes. -/
def Buffer.Len (b : Buffer) : Nat := b.buf.length - b.off

/-- Reading a buffer to the end: the unread bytes are returned and the read
offset moves to the end of the buffer. -/
def Buffer.ReadAll (b : Buffer) : String × Buffer :=
  (String.mk (b.buf.drop b.off), { b with off := b.buf.length })

/-! ## Collector, environment and state -/

/-- The plain fields of `Collector`.  The `db` and `storage` handles are the
`World` and the storage component of `State`. -/
structure Collector where
  lastSet : String
  pxcServiceName : String
  pxcUser : String
  pxcPass : String
  bufferSize : Int
deriving DecidableEq

structure Config where
  PXCServiceName : String
  PXCUser : String
  PXCPass : String
  S3Endpoint : String
  S3AccessKeyID : String
  S3AccessKey : String
  S3BucketName : String
  S3Region : String
  BufferSize : Int
deriving DecidableEq

def lastSetFileName : String := "last-binlog-set"

def gtidPostfix : String := "-gtid-set"

/-- External calls recorded in the trace. -/
inductive Event where
  | GetGTIDSet (binlog : String)
  | Remove (path : String) (ok : Bool)
  | Mkfifo (path : String) (ok : Bool)
  | Start (cmdStr : String) (ok : Bool)
  | PutObject (name : String) (content : String) (ok : Bool)
deriving DecidableEq

/-- The environment of a run. -/
structure World where
  /-- Embedding of `db.GetBinLogName`. -/
  GetBinLogName : String → Except GoError String
  /-- Embedding of `db.GetBinLogList`. -/
  GetBinLogList : Except GoError (List String)
  /-- Embedding of `db.GetGTIDSet`. -/
  GetGTIDSet : String → Except GoError String
  /-- Embedding of `db.GetHost`. -/
  GetHost : String
  /-- The constant `db.UsingPassErrorMessage`. -/
  UsingPassErrorMessage : String
  /-- Failure of `os.Remove` on an existing path. -/
  removeErr : Nat → String → Option GoError
  /-- Failure of `syscall.Mkfifo` on a free path. -/
  mkfifoErr : Nat → String → Option GoError
  /-- Failure of `os.OpenFile`. -/
  openErr : Nat → String → Option GoError
  /-- Failure of `cmd.StderrPipe`. -/
  stderrPipeErr : Nat → String → Option GoError
  /-- Failure of `cmd.Start`. -/
  startErr : Nat → String → Option GoError
  /-- What the started command writes to its standard error. -/
  stderr : String → Stream
  /-- What the started command writes into the named pipe at a path. -/
  fifo : String → String
  /-- Failure of `Storage.PutObject`. -/
  putErr : Nat → String → Option GoError

structure State where
  c : Collector
  /-- Which paths exist. -/
  fs : String → Bool
  /-- The stored objects. -/
  objects : String → Option String
  trace : List Event

/-- The time handed to the failure oracles. -/
def State.clock (s : State) : Nat := s.trace.length

def State.log (s : State) (e : Event) : State :=
  { s with trace := s.trace ++ [e] }

/-- Embedding of `os.Remove`: fails when the path does not exist or the environment refuses;
otherwise the path is gone. -/
def os_Remove (w : World) (path : String) (s : State) : Option GoError × State :=
  if s.fs path then
    match w.removeErr s.clock path with
    | some err => (some err, s.log (.Remove path false))
    | none =>
      (none, { s.log (.Remove path true) with fs := fun p => if p = path then false else s.fs p })
  else
    (some { msg := "remove " ++ path ++ ": no such file or directory", code := "" },
      s.log (.Remove path false))

/-- Embedding of `syscall.Mkfifo`: fails when the path exists or the environment refuses;
otherwise the path exists afterwards. -/
def syscall_Mkfifo (w : World) (path : String) (s : State) : Option GoError × State :=
  if s.fs path then
    (some { msg := "file exists", code := "" }, s.log (.Mkfifo path false))
  else
    match w.mkfifoErr s.clock path with
    | some err => (some err, s.log (.Mkfifo path false))
    | none =>
      (none, { s.log (.Mkfifo path true) with fs := fun p => if p = path then true else s.fs p })

/-- Embedding of `cmd.Start`. -/
def cmd_Start (w : World) (cmdStr : String) (s : State) : Option GoError × State :=
  match w.startErr s.clock cmdStr with
  | some err => (some err, s.log (.Start cmdStr false))
  | none => (none, s.log (.Start cmdStr true))

/-- Modelled from the spec: the implementation of `Storage.PutObject` (package
`storage`) is not part of the sources.  `Put(name, stream)` uploads the
stream's full content under `name`; a failed call leaves the stored objects as
they were.  `content` is what reading the stream to its end yields. -/
def PutObject (w : World) (name : String) (content : String) (s : State) :
    Option GoError × State :=
  match w.putErr s.clock name with
  | some err => (some err, s.log (.PutObject name content false))
  | none =>
    (none, { s.log (.PutObject name content true) with
              objects := fun n => if n = name then some content else s.objects n })

/-! ## `New` -/

/-- The storage handle returned by `storage.NewS3`, as far as `New` uses it. -/
structure S3 where
  GetObject : String → Except GoError Stream

/-- Embedding of `New`.  `NewS3` stands for `storage.NewS3`. -/
def New (NewS3 : String → String → String → String → String → Bool → Except GoError S3)
    (c : Config) : Except GoError Collector :=
  match NewS3 c.S3Endpoint c.S3AccessKeyID c.S3AccessKey c.S3BucketName c.S3Region true with
  | .error err => .error (Wrap err "new storage manager")
  | .ok s3 =>
    match s3.GetObject lastSetFileName with
    | .error err => .error (Wrap err "get last set content")
    | .ok lastSetObject =>
      match ioutil_ReadAll lastSetObject with
      | (lastSet, some err) =>
        if err.code ≠ "NoSuchKey" then .error (Wrap err "read object")
        else
          .ok { lastSet := Bytes.toString lastSet, pxcUser := c.PXCUser, pxcPass := c.PXCPass,
                pxcServiceName := c.PXCServiceName, bufferSize := 0 }
      | (lastSet, none) =>
        .ok { lastSet := Bytes.toString lastSet, pxcUser := c.PXCUser, pxcPass := c.PXCPass,
              pxcServiceName := c.PXCServiceName, bufferSize := 0 }

/-! ## `manageBinlog` and `CollectBinLogs` -/

/-- Embedding of `errors.Errorf("mysqlbinlog: %s", stdErr)`. -/
def Errorf_mysqlbinlog (stdErr : Bytes) : GoError :=
  { msg := "mysqlbinlog: " ++ Bytes.toString stdErr, code := "" }

/-- Embedding of `Collector.manageBinlog`.  Closing the pipe descriptor (`defer file.Close()`)
and `cmd.Wait()` change nothing of the state that is modelled. -/
def manageBinlog (w : World) (binlog : String) (s : State) : Option GoError × State :=
  let s := s.log (.GetGTIDSet binlog)
  match w.GetGTIDSet binlog with
  | .error err => (some (Wrap err "get GTID set"), s)
  | .ok set =>
    let setBuffer := Buffer.zero.WriteString set
    if setBuffer.Len = 0 then (none, s)
    else
      let s := (os_Remove w ("/tmp/" ++ binlog) s).2
      match syscall_Mkfifo w ("/tmp/" ++ binlog) s with
      | (some err, s) => (some (Wrap err "make named pipe file error"), s)
      | (none, s) =>
        match w.openErr s.clock ("/tmp/" ++ binlog) with
        | some err => (some (Wrap err "open named pipe file error:"), s)
        | none =>
          let cmdStr := "mysqlbinlog -R --raw" ++ " -h" ++ w.GetHost ++ " -u" ++ s.c.pxcUser
            ++ " -p$PXC_PASS --result-file=/tmp/ " ++ binlog
          match w.stderrPipeErr s.clock cmdStr with
          | some err => (some (Wrap err "get stderr pipe"), s)
          | none =>
            match cmd_Start w cmdStr s with
            | (some err, s) => (some (Wrap err "run mysqlbinlog command"), s)
            | (none, s) =>
              match ioutil_ReadAll (w.stderr cmdStr) with
              | (_, some err) => (some (Wrap err "read error output"), s)
              | (stdErr, none) =>
                if stdErr ≠ none
                    ∧ Bytes.toString (bytes_TrimRight stdErr "\n") ≠ w.UsingPassErrorMessage then
                  (some (Errorf_mysqlbinlog stdErr), s)
                else
                  match PutObject w binlog (w.fifo ("/tmp/" ++ binlog)) s with
                  | (some err, s) => (some (Wrap err "put binlog object"), s)
                  | (none, s) =>
                    match os_Remove w ("/tmp/" ++ binlog) s with
                    | (some err, s) => (some (Wrap err "remove file"), s)
                    | (none, s) =>
                      match PutObject w (binlog ++ gtidPostfix) setBuffer.ReadAll.1 s with
                      | (some err, s) => (some (Wrap err "put gtid-set object"), s)
                      | (none, s) =>
                        let setBuffer := setBuffer.ReadAll.2.WriteString set
                        match PutObject w lastSetFileName setBuffer.ReadAll.1 s with
                        | (some err, s) => (some (Wrap err "put last-set object"), s)
                        | (none, s) => (none, { s with c := { s.c with lastSet := set } })

/-- The `for _, binlog := range list` loop of `CollectBinLogs`, with the
`upload` flag as an argument. -/
def CollectBinLogs.loop (w : World) (binlogName : String) :
    List String → Bool → State → Option GoError × State
  | [], _, s => (none, s)
  | binlog :: rest, upload, s =>
    let upload := if binlog = binlogName then true else upload
    if upload then
      match manageBinlog w binlog s with
      | (some err, s) => (some (Wrap err "manage binlog"), s)
      | (none, s) => CollectBinLogs.loop w binlogName rest upload s
    else
      CollectBinLogs.loop w binlogName rest upload s

/-- Embedding of `Collector.CollectBinLogs`. -/
def CollectBinLogs (w : World) (s : State) : Option GoError × State :=
  match w.GetBinLogName s.c.lastSet with
  | .error err => (some (Wrap err "get binlog name by set"), s)
  | .ok binlogName =>
    match w.GetBinLogList with
    | .error err => (some (Wrap err "get binlog list"), s)
    | .ok list =>
      let upload := if binlogName.length = 0 then true else false
      CollectBinLogs.loop w binlogName list upload s


/-! ## Vocabulary of the statements -/

/-- The binlogs handed to `manageBinlog`, read off a trace: every call of
`manageBinlog` starts with `GetGTIDSet` on its argument, and nothing else calls it. -/
def managed (tr : List Event) : List String :=
  tr.filterMap fun e => match e with
    | .GetGTIDSet b => some b
    | _ => none

/-- The successful storage writes of a trace, as pairs of object name and content. -/
def writes (tr : List Event) : List (String × String) :=
  tr.filterMap fun e => match e with
    | .PutObject n c true => some (n, c)
    | _ => none

/-- The object names of all `PutObject` calls of a trace, failed ones included. -/
def putCalls (tr : List Event) : List String :=
  tr.filterMap fun e => match e with
    | .PutObject n _ _ => some n
    | _ => none

/-- The token under which a log is archived; `none` when its token is empty or
cannot be fetched. -/
def tokenOf (w : World) (b : String) : Option String :=
  match w.GetGTIDSet b with
  | .ok set => if set = "" then none else some set
  | .error _ => none

/-- The three objects written for an archived log; nothing for a skipped one. -/
def archiveWrites (w : World) (b : String) : List (String × String) :=
  match tokenOf w b with
  | some set => [(b, w.fifo ("/tmp/" ++ b)), (b ++ gtidPostfix, set), (lastSetFileName, set)]
  | none => []

/-- The value of a cursor after the logs `logs` were processed one after the
other: the token of the last archived log, or the initial value. -/
def cursorAfter {α : Type} (w : World) (f : String → α) (logs : List String) (init : α) : α :=
  logs.foldl (fun acc b => match tokenOf w b with
    | some t => f t
    | none => acc) init

/-- The logs of `list` from the first occurrence of `binlogName` onwards; all of
`list` when `binlogName` is empty. -/
def eligible (binlogName : String) (list : List String) : List String :=
  if binlogName = "" then list else list.dropWhile (fun b => decide (b ≠ binlogName))

/-- Some step of `manageBinlog` fails for log `binlog` started in state `s`: the
token lookup fails, or the token is non-empty and one of the later steps gets a
failure from the environment at the time the step is made (the times count the
calls recorded since the start), or the standard error of the export process is
not accepted. -/
def stepFails (w : World) (binlog : String) (s : State) : Bool :=
  let n := s.trace.length
  let path := "/tmp/" ++ binlog
  let cmdStr := "mysqlbinlog -R --raw" ++ " -h" ++ w.GetHost ++ " -u" ++ s.c.pxcUser
    ++ " -p$PXC_PASS --result-file=/tmp/ " ++ binlog
  match w.GetGTIDSet binlog with
  | .error _ => true
  | .ok set =>
    set != "" &&
      ((s.fs path && (w.removeErr (n + 1) path).isSome)
        || (w.mkfifoErr (n + 2) path).isSome
        || (w.openErr (n + 3) path).isSome
        || (w.stderrPipeErr (n + 3) cmdStr).isSome
        || (w.startErr (n + 3) cmdStr).isSome
        || (ioutil_ReadAll (w.stderr cmdStr)).2.isSome
        || decide ((ioutil_ReadAll (w.stderr cmdStr)).1 ≠ none
            ∧ Bytes.toString (bytes_TrimRight (ioutil_ReadAll (w.stderr cmdStr)).1 "\n")
              ≠ w.UsingPassErrorMessage)
        || (w.putErr (n + 4) binlog).isSome
        || (w.removeErr (n + 5) path).isSome
        || (w.putErr (n + 6) (binlog ++ gtidPostfix)).isSome
        || (w.putErr (n + 7) lastSetFileName).isSome)

/-- What one call of `manageBinlog` from state `s` with result `r` has done. -/
def ManagePost (w : World) (b : String) (s : State) (r : Option GoError × State) : Prop :=
  ∃ evs, r.2.trace = s.trace ++ .GetGTIDSet b :: evs ∧ managed evs = [] ∧
    (Event.Mkfifo ("/tmp/" ++ b) true ∈ evs → s.fs ("/tmp/" ++ b) = true →
      ∃ rest, evs = .Remove ("/tmp/" ++ b) true :: .Mkfifo ("/tmp/" ++ b) true :: rest) ∧
    ((r.1 = none ∧
        ((w.GetGTIDSet b = .ok "" ∧ r.2 = s.log (.GetGTIDSet b)) ∨
         (∃ set, w.GetGTIDSet b = .ok set ∧ set ≠ "" ∧
            writes evs = [(b, w.fifo ("/tmp/" ++ b)), (b ++ gtidPostfix, set),
              (lastSetFileName, set)] ∧
            putCalls evs = [b, b ++ gtidPostfix, lastSetFileName] ∧
            r.2.c = { s.c with lastSet := set } ∧
            r.2.objects lastSetFileName = some set ∧
            r.2.objects (b ++ gtidPostfix) = some set ∧
            r.2.fs ("/tmp/" ++ b) = false))) ∨
     (r.1 ≠ none ∧ r.2.c = s.c ∧
        (writes evs = [] ∨ writes evs = [(b, w.fifo ("/tmp/" ++ b))] ∨
          ∃ set, w.GetGTIDSet b = .ok set ∧
            writes evs = [(b, w.fifo ("/tmp/" ++ b)), (b ++ gtidPostfix, set)]) ∧
        (b ≠ lastSetFileName → r.2.objects lastSetFileName = s.objects lastSetFileName) ∧
        (Event.Mkfifo ("/tmp/" ++ b) true ∈ evs → writes evs = [] →
          r.2.fs ("/tmp/" ++ b) = true)))

/-! ## Concrete runs -/

/-- A healthy environment: three logs `a`, `b`, `c` with tokens `t_a`, `t_b`,
`t_c`; the cursor `t_a` resolves to `a`, any other cursor to nothing; the export
tool prints the credential warning; nothing fails. -/
def healthy : World :=
  { GetBinLogName := fun set => if set = "t_a" then .ok "a" else .ok ""
    GetBinLogList := .ok ["a", "b", "c"]
    GetGTIDSet := fun b => .ok ("t_" ++ b)
    GetHost := "pxc-0"
    UsingPassErrorMessage :=
      "mysqlbinlog: [Warning] Using a password on the command line interface can be insecure."
    removeErr := fun _ _ => none
    mkfifoErr := fun _ _ => none
    openErr := fun _ _ => none
    stderrPipeErr := fun _ _ => none
    startErr := fun _ _ => none
    stderr := fun _ =>
      { data := ("mysqlbinlog: [Warning] Using a password on the command line interface "
          ++ "can be insecure.\n").data, err := none }
    fifo := fun p => "payload of " ++ p
    putErr := fun _ _ => none }

/-- A fresh state: no file, no stored object, empty trace, the given cursor in
the collector. -/
def fresh (lastSet : String) : State :=
  { c := { lastSet := lastSet, pxcServiceName := "pxc", pxcUser := "operator",
           pxcPass := "secret", bufferSize := 0 }
    fs := fun _ => false
    objects := fun _ => none
    trace := [] }

/-- As `healthy`, but the storage refuses the object named `name`. -/
def putFailing (name : String) : World :=
  { healthy with putErr := fun _ n => if n = name then some ⟨"storage unavailable", ""⟩ else none }

/-- As `healthy`, but log `b` has an empty token. -/
def emptyB : World :=
  { healthy with GetGTIDSet := fun b => if b = "b" then .ok "" else .ok ("t_" ++ b) }

/-- As `healthy`, but every cursor resolves to a log that is not in the list. -/
def purged : World :=
  { healthy with GetBinLogName := fun _ => .ok "binlog.000001" }

/-- As `healthy`, but the export tool writes nothing to its standard error. -/
def silent : World :=
  { healthy with stderr := fun _ => { data := [], err := none } }

/-- As `healthy`, but the only log bears the name of the cursor object, and the
storage refuses its sidecar. -/
def clash : World :=
  { putFailing "last-binlog-set-gtid-set" with GetBinLogList := .ok ["last-binlog-set"] }

/-- A state after earlier runs: the collector and the stored cursor hold `t_0`. -/
def resumed : State :=
  { fresh "t_0" with objects := fun n => if n = "last-binlog-set" then some "t_0" else none }

/-- A configuration for `New`. -/
def someConfig : Config :=
  { PXCServiceName := "pxc", PXCUser := "operator", PXCPass := "secret",
    S3Endpoint := "s3", S3AccessKeyID := "id", S3AccessKey := "key",
    S3BucketName := "bucket", S3Region := "region", BufferSize := 0 }

/-- A storage whose `GetObject` answers every request with `r`. -/
def storageAnswering (r : Except GoError Stream) :
    String → String → String → String → String → Bool → Except GoError S3 :=
  fun _ _ _ _ _ _ => .ok { GetObject := fun _ => r }

/-! ## Facts about the primitives -/

theorem Buffer.len_writeString_zero (set : String) :
    (Buffer.zero.WriteString set).Len = 0 ↔ set = "" := by
  cases set with
  | mk d =>
    simp [Buffer.zero, Buffer.WriteString, Buffer.Len, String.ext_iff]

theorem Buffer.readAll_first (set : String) :
    (Buffer.zero.WriteString set).ReadAll.1 = set := by
  simp [Buffer.zero, Buffer.WriteString, Buffer.ReadAll]

theorem Buffer.readAll_second (set : String) :
    ((Buffer.zero.WriteString set).ReadAll.2.WriteString set).ReadAll.1 = set := by
  simp [Buffer.zero, Buffer.WriteString, Buffer.ReadAll]

theorem os_Remove_spec (w : World) (p : String) (s : State) :
    ∃ ok, (os_Remove w p s).2.trace = s.trace ++ [.Remove p ok] ∧
      (os_Remove w p s).2.c = s.c ∧ (os_Remove w p s).2.objects = s.objects ∧
      (ok = true → (os_Remove w p s).2.fs p = false) ∧
      (ok = false → (os_Remove w p s).2.fs = s.fs) ∧
      ((os_Remove w p s).1 = none ↔ ok = true) := by
  unfold os_Remove
  by_cases h : s.fs p = true
  · cases hr : w.removeErr s.clock p with
    | none => exact ⟨true, by simp [h, hr, State.log]⟩
    | some e => exact ⟨false, by simp [h, hr, State.log]⟩
  · exact ⟨false, by simp [h, State.log]⟩

theorem syscall_Mkfifo_cases (w : World) (p : String) (s : State) :
    (s.fs p = false ∧ syscall_Mkfifo w p s =
      (none, { s.log (.Mkfifo p true) with fs := fun q => if q = p then true else s.fs q })) ∨
    (∃ e, syscall_Mkfifo w p s = (some e, s.log (.Mkfifo p false))) := by
  unfold syscall_Mkfifo
  by_cases h : s.fs p = true
  · simp [h]
  · cases hr : w.mkfifoErr s.clock p with
    | none => simp [h, hr]
    | some e => simp [h, hr]

theorem cmd_Start_cases (w : World) (cmd : String) (s : State) :
    cmd_Start w cmd s = (none, s.log (.Start cmd true)) ∨
    (∃ e, cmd_Start w cmd s = (some e, s.log (.Start cmd false))) := by
  unfold cmd_Start
  cases hr : w.startErr s.clock cmd <;> simp [hr]

theorem PutObject_cases (w : World) (n c : String) (s : State) :
    PutObject w n c s = (none, { s.log (.PutObject n c true) with
        objects := fun m => if m = n then some c else s.objects m }) ∨
    (∃ e, PutObject w n c s = (some e, s.log (.PutObject n c false))) := by
  unfold PutObject
  cases hr : w.putErr s.clock n <;> simp [hr]

theorem os_Remove_cases (w : World) (p : String) (s : State) :
    (s.fs p = true ∧ os_Remove w p s =
      (none, { s.log (.Remove p true) with fs := fun q => if q = p then false else s.fs q })) ∨
    (∃ e, os_Remove w p s = (some e, s.log (.Remove p false))) := by
  unfold os_Remove
  by_cases h : s.fs p = true
  · cases hr : w.removeErr s.clock p with
    | none => simp [h, hr]
    | some e => simp [h, hr]
  · simp [h]

theorem os_Remove_none {w : World} {p : String} {s s' : State}
    (h : os_Remove w p s = (none, s')) :
    s.fs p = true ∧
      s' = { s.log (.Remove p true) with fs := fun q => if q = p then false else s.fs q } := by
  rcases os_Remove_cases w p s with ⟨h1, h2⟩ | ⟨e, h2⟩
  · rw [h2] at h; exact ⟨h1, (Prod.mk.inj h).2.symm⟩
  · rw [h2] at h; cases h

theorem os_Remove_some {w : World} {p : String} {s s' : State} {e : GoError}
    (h : os_Remove w p s = (some e, s')) : s' = s.log (.Remove p false) := by
  rcases os_Remove_cases w p s with ⟨_, h2⟩ | ⟨e, h2⟩
  · rw [h2] at h; cases h
  · rw [h2] at h; exact (Prod.mk.inj h).2.symm

theorem syscall_Mkfifo_none {w : World} {p : String} {s s' : State}
    (h : syscall_Mkfifo w p s = (none, s')) :
    s.fs p = false ∧
      s' = { s.log (.Mkfifo p true) with fs := fun q => if q = p then true else s.fs q } := by
  rcases syscall_Mkfifo_cases w p s with ⟨h1, h2⟩ | ⟨e, h2⟩
  · rw [h2] at h; exact ⟨h1, (Prod.mk.inj h).2.symm⟩
  · rw [h2] at h; cases h

theorem syscall_Mkfifo_some {w : World} {p : String} {s s' : State} {e : GoError}
    (h : syscall_Mkfifo w p s = (some e, s')) : s' = s.log (.Mkfifo p false) := by
  rcases syscall_Mkfifo_cases w p s with ⟨_, h2⟩ | ⟨e, h2⟩
  · rw [h2] at h; cases h
  · rw [h2] at h; exact (Prod.mk.inj h).2.symm

theorem cmd_Start_none {w : World} {cmd : String} {s s' : State}
    (h : cmd_Start w cmd s = (none, s')) : s' = s.log (.Start cmd true) := by
  rcases cmd_Start_cases w cmd s with h2 | ⟨e, h2⟩
  · rw [h2] at h; exact (Prod.mk.inj h).2.symm
  · rw [h2] at h; cases h

theorem cmd_Start_some {w : World} {cmd : String} {s s' : State} {e : GoError}
    (h : cmd_Start w cmd s = (some e, s')) : s' = s.log (.Start cmd false) := by
  rcases cmd_Start_cases w cmd s with h2 | ⟨e, h2⟩
  · rw [h2] at h; cases h
  · rw [h2] at h; exact (Prod.mk.inj h).2.symm

theorem PutObject_none {w : World} {n c : String} {s s' : State}
    (h : PutObject w n c s = (none, s')) :
    s' = { s.log (.PutObject n c true) with
            objects := fun m => if m = n then some c else s.objects m } := by
  rcases PutObject_cases w n c s with h2 | ⟨e, h2⟩
  · rw [h2] at h; exact (Prod.mk.inj h).2.symm
  · rw [h2] at h; cases h

theorem PutObject_some {w : World} {n c : String} {s s' : State} {e : GoError}
    (h : PutObject w n c s = (some e, s')) : s' = s.log (.PutObject n c false) := by
  rcases PutObject_cases w n c s with h2 | ⟨e, h2⟩
  · rw [h2] at h; cases h
  · rw [h2] at h; exact (Prod.mk.inj h).2.symm

theorem os_Remove_fs_iff (w : World) (p : String) (s : State) :
    (os_Remove w p s).2.fs p = true ↔ (s.fs p = true ∧ (w.removeErr s.clock p).isSome = true) := by
  unfold os_Remove
  by_cases h : s.fs p = true
  · cases hr : w.removeErr s.clock p <;> simp [h, hr, State.log]
  · simp [h, State.log]

theorem os_Remove_ok_iff (w : World) (p : String) (s : State) :
    (os_Remove w p s).1 = none ↔ (s.fs p = true ∧ w.removeErr s.clock p = none) := by
  unfold os_Remove
  by_cases h : s.fs p = true
  · cases hr : w.removeErr s.clock p <;> simp [h, hr]
  · simp [h]

theorem syscall_Mkfifo_ok_iff (w : World) (p : String) (s : State) :
    (syscall_Mkfifo w p s).1 = none ↔ (s.fs p = false ∧ w.mkfifoErr s.clock p = none) := by
  unfold syscall_Mkfifo
  by_cases h : s.fs p = true
  · simp [h]
  · cases hr : w.mkfifoErr s.clock p <;> simp [h, hr]

theorem cmd_Start_ok_iff (w : World) (cmd : String) (s : State) :
    (cmd_Start w cmd s).1 = none ↔ w.startErr s.clock cmd = none := by
  unfold cmd_Start
  cases hr : w.startErr s.clock cmd <;> simp [hr]

theorem PutObject_ok_iff (w : World) (n c : String) (s : State) :
    (PutObject w n c s).1 = none ↔ w.putErr s.clock n = none := by
  unfold PutObject
  cases hr : w.putErr s.clock n <;> simp [hr]


theorem gtid_ne_lastSet (b : String) : b ++ gtidPostfix ≠ lastSetFileName := by
  intro h
  have h1 : (b ++ gtidPostfix).data = lastSetFileName.data := by rw [h]
  have h2 : gtidPostfix.data <:+ lastSetFileName.data := ⟨b.data, by rw [← h1]; rfl⟩
  revert h2
  decide

/-! ## One call of `manageBinlog` -/

theorem manageBinlog_post (w : World) (b : String) (s : State) :
    ManagePost w b s (manageBinlog w b s) := by
  generalize hr : manageBinlog w b s = r
  unfold manageBinlog at hr
  simp only [Buffer.len_writeString_zero, Buffer.readAll_first, Buffer.readAll_second] at hr
  cases hg : w.GetGTIDSet b with
  | error e =>
    simp only [hg] at hr
    subst hr
    exact ⟨[], by simp [State.log, managed, writes]⟩
  | ok set =>
    simp only [hg] at hr
    by_cases hset : set = ""
    · subst hset
      simp only [if_true] at hr
      subst hr
      exact ⟨[], by simp [State.log, managed, writes, hg]⟩
    · simp only [hset, if_false] at hr
      obtain ⟨ok1, ht1, hc1, ho1, -, hfs1b, -⟩ :=
        os_Remove_spec w ("/tmp/" ++ b) (s.log (.GetGTIDSet b))
      generalize (os_Remove w ("/tmp/" ++ b) (s.log (.GetGTIDSet b))).2 = s1
        at hr ht1 hc1 ho1 hfs1b
      simp only [State.log] at ht1 hc1 ho1 hfs1b
      have hstale : s.fs ("/tmp/" ++ b) = true → s1.fs ("/tmp/" ++ b) = false → ok1 = true := by
        intro h1 h2
        cases ok1 with
        | true => rfl
        | false => rw [hfs1b rfl, h1] at h2; cases h2
      split at hr
      next err s2 h2 =>
        obtain rfl := syscall_Mkfifo_some h2
        subst hr
        exact ⟨[.Remove ("/tmp/" ++ b) ok1, .Mkfifo ("/tmp/" ++ b) false],
          by simp [State.log, ht1], by simp [managed], by simp,
          Or.inr ⟨by simp, by simp [State.log, hc1], by simp [writes],
            fun _ => by simp [State.log, ho1], by simp⟩⟩
      next s2 h2 =>
        obtain ⟨hfree, rfl⟩ := syscall_Mkfifo_none h2
        have hst : ∀ rest : List Event, s.fs ("/tmp/" ++ b) = true →
            ∃ rest', Event.Remove ("/tmp/" ++ b) ok1 :: Event.Mkfifo ("/tmp/" ++ b) true :: rest
              = Event.Remove ("/tmp/" ++ b) true :: Event.Mkfifo ("/tmp/" ++ b) true :: rest' :=
          fun rest h => ⟨rest, by rw [hstale h hfree]⟩
        simp only [State.log] at hr
        generalize ("mysqlbinlog -R --raw" ++ " -h" ++ w.GetHost ++ " -u" ++ s1.c.pxcUser
          ++ " -p$PXC_PASS --result-file=/tmp/ " ++ b) = cmd at hr
        split at hr
        next err hopen =>
          subst hr
          exact ⟨[.Remove ("/tmp/" ++ b) ok1, .Mkfifo ("/tmp/" ++ b) true],
            by simp [ht1], by simp [managed], fun _ h => hst _ h,
            Or.inr ⟨by simp, by simp [hc1], by simp [writes],
              fun _ => by simp [ho1], fun _ _ => by simp⟩⟩
        next hopen =>
          split at hr
          next err hpipe =>
            subst hr
            exact ⟨[.Remove ("/tmp/" ++ b) ok1, .Mkfifo ("/tmp/" ++ b) true],
              by simp [ht1], by simp [managed], fun _ h => hst _ h,
              Or.inr ⟨by simp, by simp [hc1], by simp [writes],
                fun _ => by simp [ho1], fun _ _ => by simp⟩⟩
          next hpipe =>
            split at hr
            next err s3 h3 =>
              obtain rfl := cmd_Start_some h3
              subst hr
              exact ⟨[.Remove ("/tmp/" ++ b) ok1, .Mkfifo ("/tmp/" ++ b) true, .Start cmd false],
                by simp [State.log, ht1], by simp [managed], fun _ h => hst _ h,
                Or.inr ⟨by simp, by simp [State.log, hc1], by simp [writes],
                  fun _ => by simp [State.log, ho1], fun _ _ => by simp [State.log]⟩⟩
            next s3 h3 =>
              obtain rfl := cmd_Start_none h3
              simp only [ioutil_ReadAll, State.log] at hr
              split at hr
              next x err hread =>
                subst hr
                exact ⟨[.Remove ("/tmp/" ++ b) ok1, .Mkfifo ("/tmp/" ++ b) true, .Start cmd true],
                  by simp [ht1], by simp [managed], fun _ h => hst _ h,
                  Or.inr ⟨by simp, by simp [hc1], by simp [writes],
                    fun _ => by simp [ho1], fun _ _ => by simp⟩⟩
              next stdErr hread =>
                split at hr
                next hbad =>
                  subst hr
                  exact ⟨[.Remove ("/tmp/" ++ b) ok1, .Mkfifo ("/tmp/" ++ b) true,
                      .Start cmd true],
                    by simp [ht1], by simp [managed], fun _ h => hst _ h,
                    Or.inr ⟨by simp, by simp [hc1], by simp [writes],
                      fun _ => by simp [ho1], fun _ _ => by simp⟩⟩
                next hgood =>
                  split at hr
                  next err s4 h4 =>
                    obtain rfl := PutObject_some h4
                    subst hr
                    exact ⟨[.Remove ("/tmp/" ++ b) ok1, .Mkfifo ("/tmp/" ++ b) true,
                        .Start cmd true, .PutObject b (w.fifo ("/tmp/" ++ b)) false],
                      by simp [State.log, ht1], by simp [managed], fun _ h => hst _ h,
                      Or.inr ⟨by simp, by simp [State.log, hc1], by simp [writes],
                        fun _ => by simp [State.log, ho1], fun _ _ => by simp [State.log]⟩⟩
                  next s4 h4 =>
                    obtain rfl := PutObject_none h4
                    simp only [State.log] at hr
                    split at hr
                    next err s5 h5 =>
                      obtain rfl := os_Remove_some h5
                      subst hr
                      exact ⟨[.Remove ("/tmp/" ++ b) ok1, .Mkfifo ("/tmp/" ++ b) true,
                          .Start cmd true, .PutObject b (w.fifo ("/tmp/" ++ b)) true,
                          .Remove ("/tmp/" ++ b) false],
                        by simp [State.log, ht1], by simp [managed], fun _ h => hst _ h,
                        Or.inr ⟨by simp, by simp [State.log, hc1], by simp [writes],
                          fun hb => by simp [State.log, ho1, Ne.symm hb],
                          fun _ h => by simp [writes] at h⟩⟩
                    next s5 h5 =>
                      obtain ⟨-, rfl⟩ := os_Remove_none h5
                      simp only [State.log] at hr
                      split at hr
                      next err s6 h6 =>
                        obtain rfl := PutObject_some h6
                        subst hr
                        exact ⟨[.Remove ("/tmp/" ++ b) ok1, .Mkfifo ("/tmp/" ++ b) true,
                            .Start cmd true, .PutObject b (w.fifo ("/tmp/" ++ b)) true,
                            .Remove ("/tmp/" ++ b) true, .PutObject (b ++ gtidPostfix) set false],
                          by simp [State.log, ht1], by simp [managed], fun _ h => hst _ h,
                          Or.inr ⟨by simp, by simp [State.log, hc1], by simp [writes],
                            fun hb => by simp [State.log, ho1, Ne.symm hb],
                            fun _ h => by simp [writes] at h⟩⟩
                      next s6 h6 =>
                        obtain rfl := PutObject_none h6
                        simp only [State.log] at hr
                        split at hr
                        next err s7 h7 =>
                          obtain rfl := PutObject_some h7
                          subst hr
                          exact ⟨[.Remove ("/tmp/" ++ b) ok1, .Mkfifo ("/tmp/" ++ b) true,
                              .Start cmd true, .PutObject b (w.fifo ("/tmp/" ++ b)) true,
                              .Remove ("/tmp/" ++ b) true,
                              .PutObject (b ++ gtidPostfix) set true,
                              .PutObject lastSetFileName set false],
                            by simp [State.log, ht1], by simp [managed], fun _ h => hst _ h,
                            Or.inr ⟨by simp, by simp [State.log, hc1],
                              Or.inr (Or.inr ⟨set, hg, by simp [writes]⟩),
                              fun hb => by
                                simp [State.log, ho1, Ne.symm hb,
                                  Ne.symm (gtid_ne_lastSet b)],
                              fun _ h => by simp [writes] at h⟩⟩
                        next s7 h7 =>
                          obtain rfl := PutObject_none h7
                          subst hr
                          exact ⟨[.Remove ("/tmp/" ++ b) ok1, .Mkfifo ("/tmp/" ++ b) true,
                              .Start cmd true, .PutObject b (w.fifo ("/tmp/" ++ b)) true,
                              .Remove ("/tmp/" ++ b) true,
                              .PutObject (b ++ gtidPostfix) set true,
                              .PutObject lastSetFileName set true],
                            by simp [State.log, ht1], by simp [managed], fun _ h => hst _ h,
                            Or.inl ⟨by simp, Or.inr ⟨set, hg, hset, by simp [writes],
                              by simp [putCalls], by simp [State.log, hc1],
                              by simp [State.log],
                              by simp [State.log, gtid_ne_lastSet], by simp [State.log]⟩⟩⟩
theorem stepFails_iff (w : World) (b : String) (s : State) :
    stepFails w b s = true ↔ (manageBinlog w b s).1 ≠ none := by
  generalize hr : manageBinlog w b s = r
  unfold manageBinlog at hr
  simp only [Buffer.len_writeString_zero, Buffer.readAll_first, Buffer.readAll_second] at hr
  unfold stepFails
  simp only []
  cases hg : w.GetGTIDSet b with
  | error e =>
    simp only [hg] at hr
    subst hr
    simp
  | ok set =>
    simp only [hg] at hr
    by_cases hset : set = ""
    · subst hset
      simp only [if_true] at hr
      subst hr
      simp
    · simp only [hset, if_false] at hr
      obtain ⟨ok1, ht1, hc1, -, -, -, -⟩ :=
        os_Remove_spec w ("/tmp/" ++ b) (s.log (.GetGTIDSet b))
      have hfs1 := os_Remove_fs_iff w ("/tmp/" ++ b) (s.log (.GetGTIDSet b))
      generalize (os_Remove w ("/tmp/" ++ b) (s.log (.GetGTIDSet b))).2 = s1
        at hr ht1 hc1 hfs1
      simp only [State.log, State.clock, List.length_append, List.length_singleton] at ht1 hc1 hfs1
      have hlen : s1.trace.length = s.trace.length + 2 := by
        rw [ht1]; simp
      generalize hcmd : ("mysqlbinlog -R --raw" ++ " -h" ++ w.GetHost ++ " -u" ++ s.c.pxcUser
          ++ " -p$PXC_PASS --result-file=/tmp/ " ++ b) = cmd
      have hclk : s1.clock = s.trace.length + 2 := hlen
      split at hr
      next err s2 h2 =>
        have hf := (syscall_Mkfifo_ok_iff w ("/tmp/" ++ b) s1).not.mp (by rw [h2]; simp)
        rw [hclk] at hf
        subst hr
        by_cases hs1 : s1.fs ("/tmp/" ++ b) = true
        · obtain ⟨ha, hb⟩ := hfs1.mp hs1
          simp [hset, ha, hb]
        · have hs1f : s1.fs ("/tmp/" ++ b) = false := by simpa using hs1
          have hm : (w.mkfifoErr (s.trace.length + 2) ("/tmp/" ++ b)).isSome = true := by
            cases hx : w.mkfifoErr (s.trace.length + 2) ("/tmp/" ++ b) with
            | none => exact absurd ⟨hs1f, hx⟩ hf
            | some _ => rfl
          simp [hset, hm]
      next s2 h2 =>
        obtain ⟨hfree, hmk⟩ := (syscall_Mkfifo_ok_iff w ("/tmp/" ++ b) s1).mp (by rw [h2])
        rw [hclk] at hmk
        have hrm : (s.fs ("/tmp/" ++ b) && (w.removeErr (s.trace.length + 1) ("/tmp/" ++ b)).isSome)
            = false := by
          cases hx : (s.fs ("/tmp/" ++ b) && (w.removeErr (s.trace.length + 1) ("/tmp/" ++ b)).isSome)
            with
          | false => rfl
          | true =>
            rw [Bool.and_eq_true] at hx
            rw [hfs1.mpr hx] at hfree
            cases hfree
        obtain ⟨-, rfl⟩ := syscall_Mkfifo_none h2
        simp only [State.log, State.clock, List.length_append, List.length_singleton, hlen, hc1,
          hcmd] at hr
        split at hr
        next err hopen =>
          subst hr
          simp [hset, hopen]
        next hopen =>
          split at hr
          next err hpipe =>
            subst hr
            simp [hset, hpipe]
          next hpipe =>
            split at hr
            next err s3 h3 =>
              have hf := (cmd_Start_ok_iff w cmd _).not.mp (by rw [h3]; simp)
              simp only [State.clock, List.length_append, List.length_singleton, hlen] at hf
              subst hr
              have hm : (w.startErr (s.trace.length + 2 + 1) cmd).isSome = true := by
                cases hx : w.startErr (s.trace.length + 2 + 1) cmd with
                | none => exact absurd hx hf
                | some _ => rfl
              simp [hset, hm]
            next s3 h3 =>
              have hst := (cmd_Start_ok_iff w cmd _).mp (by rw [h3])
              simp only [State.clock, List.length_append, List.length_singleton, hlen] at hst
              obtain rfl := cmd_Start_none h3
              simp only [State.log] at hr
              split at hr
              next x err hread =>
                subst hr
                simp [hset, hread]
              next stdErr hread =>
                obtain ⟨hd, he⟩ := Prod.mk.inj hread
                split at hr
                next hbad =>
                  subst hr
                  rw [← hd] at hbad
                  simp [hset, ioutil_ReadAll, hbad]
                next hgood =>
                  rw [← hd] at hgood
                  split at hr
                  next err s4 h4 =>
                    have hf := (PutObject_ok_iff w b _ _).not.mp (by rw [h4]; simp)
                    simp only [State.clock, List.length_append, List.length_singleton, hlen] at hf
                    subst hr
                    have hm : (w.putErr (s.trace.length + 2 + 1 + 1) b).isSome = true := by
                      cases hx : w.putErr (s.trace.length + 2 + 1 + 1) b with
                      | none => exact absurd hx hf
                      | some _ => rfl
                    simp [hset, hm]
                  next s4 h4 =>
                    have hp1 := (PutObject_ok_iff w b _ _).mp (by rw [h4])
                    simp only [State.clock, List.length_append, List.length_singleton, hlen]
                      at hp1
                    obtain rfl := PutObject_none h4
                    simp only [State.log] at hr
                    split at hr
                    next err s5 h5 =>
                      have hf := (os_Remove_ok_iff w ("/tmp/" ++ b) _).not.mp (by rw [h5]; simp)
                      simp only [State.clock, List.length_append, List.length_singleton, hlen,
                        if_true, true_and] at hf
                      subst hr
                      have hm : (w.removeErr (s.trace.length + 2 + 1 + 1 + 1)
                          ("/tmp/" ++ b)).isSome = true := by
                        cases hx : w.removeErr (s.trace.length + 2 + 1 + 1 + 1) ("/tmp/" ++ b) with
                        | none => exact absurd hx hf
                        | some _ => rfl
                      simp [hset, hm]
                    next s5 h5 =>
                      obtain ⟨-, hr2⟩ := (os_Remove_ok_iff w ("/tmp/" ++ b) _).mp (by rw [h5])
                      simp only [State.clock, List.length_append, List.length_singleton, hlen]
                        at hr2
                      obtain ⟨-, rfl⟩ := os_Remove_none h5
                      simp only [State.log] at hr
                      split at hr
                      next err s6 h6 =>
                        have hf := (PutObject_ok_iff w _ _ _).not.mp (by rw [h6]; simp)
                        simp only [State.clock, List.length_append, List.length_singleton, hlen]
                          at hf
                        subst hr
                        have hm : (w.putErr (s.trace.length + 2 + 1 + 1 + 1 + 1)
                            (b ++ gtidPostfix)).isSome = true := by
                          cases hx : w.putErr (s.trace.length + 2 + 1 + 1 + 1 + 1)
                              (b ++ gtidPostfix) with
                          | none => exact absurd hx hf
                          | some _ => rfl
                        simp [hset, hm]
                      next s6 h6 =>
                        have hp2 := (PutObject_ok_iff w _ _ _).mp (by rw [h6])
                        simp only [State.clock, List.length_append, List.length_singleton, hlen]
                          at hp2
                        obtain rfl := PutObject_none h6
                        simp only [State.log] at hr
                        split at hr
                        next err s7 h7 =>
                          have hf := (PutObject_ok_iff w _ _ _).not.mp (by rw [h7]; simp)
                          simp only [State.clock, List.length_append, List.length_singleton,
                            hlen] at hf
                          subst hr
                          have hm : (w.putErr (s.trace.length + 2 + 1 + 1 + 1 + 1 + 1)
                              lastSetFileName).isSome = true := by
                            cases hx : w.putErr (s.trace.length + 2 + 1 + 1 + 1 + 1 + 1)
                                lastSetFileName with
                            | none => exact absurd hx hf
                            | some _ => rfl
                          simp [hset, hm]
                        next s7 h7 =>
                          have hp3 := (PutObject_ok_iff w _ _ _).mp (by rw [h7])
                          simp only [State.clock, List.length_append, List.length_singleton,
                            hlen] at hp3
                          subst hr
                          have hg2 : (bytes_TrimRight (some (w.stderr cmd).data) "\n").toString
                              = w.UsingPassErrorMessage := by
                            by_contra hne
                            exact hgood ⟨by simp, hne⟩
                          have hrm2 : s.fs ("/tmp/" ++ b) = true →
                              w.removeErr (s.trace.length + 1) ("/tmp/" ++ b) = none := by
                            intro hfs
                            cases hx : w.removeErr (s.trace.length + 1) ("/tmp/" ++ b) with
                            | none => rfl
                            | some e => simp [hfs, hx] at hrm
                          simp [hset, ioutil_ReadAll, hmk, hopen, hpipe, hst, he, hp1, hr2, hp2,
                            hp3, hg2]
                          exact hrm2

/-! ## The loop of `CollectBinLogs` -/

theorem managed_append (a b : List Event) : managed (a ++ b) = managed a ++ managed b := by
  simp [managed, List.filterMap_append]

theorem writes_append (a b : List Event) : writes (a ++ b) = writes a ++ writes b := by
  simp [writes, List.filterMap_append]

theorem putCalls_append (a b : List Event) : putCalls (a ++ b) = putCalls a ++ putCalls b := by
  simp [putCalls, List.filterMap_append]

theorem managed_cons_get (b : String) (evs : List Event) :
    managed (.GetGTIDSet b :: evs) = b :: managed evs := by
  simp [managed, List.filterMap_cons]

theorem writes_cons_get (b : String) (evs : List Event) :
    writes (.GetGTIDSet b :: evs) = writes evs := by
  simp [writes, List.filterMap_cons]

theorem loop_cons_none (w : World) (R b : String) (rest : List String) (s s1 : State)
    (h : manageBinlog w b s = (none, s1)) :
    CollectBinLogs.loop w R (b :: rest) true s = CollectBinLogs.loop w R rest true s1 := by
  simp [CollectBinLogs.loop, h]

theorem loop_cons_some (w : World) (R b : String) (rest : List String) (s s1 : State)
    (e : GoError) (h : manageBinlog w b s = (some e, s1)) :
    CollectBinLogs.loop w R (b :: rest) true s = (some (Wrap e "manage binlog"), s1) := by
  simp [CollectBinLogs.loop, h]

theorem loop_false (w : World) (R : String) (L : List String) (s : State) :
    CollectBinLogs.loop w R L false s =
      CollectBinLogs.loop w R (L.dropWhile (fun b => decide (b ≠ R))) true s := by
  induction L with
  | nil => simp [CollectBinLogs.loop]
  | cons b rest ih =>
    by_cases hb : b = R
    · subst hb
      simp [CollectBinLogs.loop, List.dropWhile]
    · simp [CollectBinLogs.loop, List.dropWhile, hb, ih]

theorem CollectBinLogs_eq_loop (w : World) (s : State) (R : String) (L : List String)
    (hR : w.GetBinLogName s.c.lastSet = .ok R) (hL : w.GetBinLogList = .ok L) :
    CollectBinLogs w s = CollectBinLogs.loop w R (eligible R L) true s := by
  unfold CollectBinLogs eligible
  simp only [hR, hL]
  by_cases h : R = ""
  · subst h; simp
  · have h0 : R.length ≠ 0 := by
      intro h0
      apply h
      cases R with
      | mk d => simp [String.length] at h0; simp [h0]
    simp only [h0, h, if_false]
    exact loop_false w R L s

theorem loop_append (w : World) (R : String) (done E : List String) (s : State)
    (h : (CollectBinLogs.loop w R done true s).1 = none) :
    CollectBinLogs.loop w R (done ++ E) true s =
      CollectBinLogs.loop w R E true (CollectBinLogs.loop w R done true s).2 := by
  induction done generalizing s with
  | nil => simp [CollectBinLogs.loop]
  | cons b rest ih =>
    rcases hm : manageBinlog w b s with ⟨_ | e, s1⟩
    · rw [loop_cons_none w R b rest s s1 hm] at h ⊢
      rw [List.cons_append, loop_cons_none w R b (rest ++ E) s s1 hm]
      exact ih s1 h
    · rw [loop_cons_some w R b rest s s1 e hm] at h
      cases h

theorem manageBinlog_ok_post (w : World) (b : String) (s : State)
    (h : (manageBinlog w b s).1 = none) :
    managed (manageBinlog w b s).2.trace = managed s.trace ++ [b] ∧
    writes (manageBinlog w b s).2.trace = writes s.trace ++ archiveWrites w b ∧
    (manageBinlog w b s).2.c.lastSet = cursorAfter w id [b] s.c.lastSet ∧
    (manageBinlog w b s).2.objects lastSetFileName
      = cursorAfter w some [b] (s.objects lastSetFileName) := by
  obtain ⟨evs, ht, hm, -, hcase⟩ := manageBinlog_post w b s
  rcases hcase with ⟨-, hskip | ⟨set, hg, hne, hw, -, hc, ho, -, -⟩⟩ | ⟨hne, -⟩
  · obtain ⟨hg, hs⟩ := hskip
    rw [hs]
    simp [State.log, managed_append, writes_append, managed_cons_get, writes_cons_get,
      archiveWrites, tokenOf, hg, cursorAfter]
    simp [managed, writes]
  · rw [ht, hc, ho]
    simp [managed_append, writes_append, managed_cons_get, writes_cons_get, hm, hw,
      archiveWrites, tokenOf, hg, hne, cursorAfter]
  · exact absurd h hne

theorem cursorAfter_cons {α : Type} (w : World) (f : String → α) (b : String)
    (rest : List String) (init : α) :
    cursorAfter w f (b :: rest) init = cursorAfter w f rest (cursorAfter w f [b] init) := by
  simp [cursorAfter]

theorem loop_ok_post (w : World) (R : String) (E : List String) (s : State)
    (h : (CollectBinLogs.loop w R E true s).1 = none) :
    managed (CollectBinLogs.loop w R E true s).2.trace = managed s.trace ++ E ∧
    writes (CollectBinLogs.loop w R E true s).2.trace
      = writes s.trace ++ E.flatMap (archiveWrites w) ∧
    (CollectBinLogs.loop w R E true s).2.c.lastSet = cursorAfter w id E s.c.lastSet ∧
    (CollectBinLogs.loop w R E true s).2.objects lastSetFileName
      = cursorAfter w some E (s.objects lastSetFileName) := by
  induction E generalizing s with
  | nil => simp [CollectBinLogs.loop, cursorAfter]
  | cons b rest ih =>
    rcases hm : manageBinlog w b s with ⟨_ | e, s1⟩
    · rw [loop_cons_none w R b rest s s1 hm] at h ⊢
      have hb := manageBinlog_ok_post w b s (by rw [hm])
      rw [hm] at hb
      obtain ⟨h1, h2, h3, h4⟩ := ih s1 h
      obtain ⟨g1, g2, g3, g4⟩ := hb
      simp only [] at g1 g2 g3 g4
      refine ⟨?_, ?_, ?_, ?_⟩
      · rw [h1, g1]; simp
      · rw [h2, g2]; simp [List.flatMap_cons]
      · rw [h3, g3, cursorAfter_cons w id b rest]
      · rw [h4, g4, cursorAfter_cons w some b rest]
    · rw [loop_cons_some w R b rest s s1 e hm] at h
      cases h

/-! ## Properties of the collector -/

theorem eligible_split (R : String) (pre post : List String) (hpre : R ∉ pre) :
    eligible R (pre ++ R :: post) = if R = "" then pre ++ R :: post else R :: post := by
  unfold eligible
  by_cases h : R = ""
  · simp [h]
  · simp only [h, if_false]
    induction pre with
    | nil => simp [List.dropWhile]
    | cons x xs ih =>
      have hx : x ≠ R := fun hx => hpre (by simp [hx])
      have hxs : R ∉ xs := fun hm => hpre (by simp [hm])
      have ih2 := ih hxs
      simp only [List.cons_append, List.dropWhile, hx, ne_eq, not_false_eq_true, decide_True]
      exact ih2

/-- C1: when no step fails, `CollectBinLogs` hands to `manageBinlog`, in list
order, exactly the logs of the list from the first occurrence of the resume name
onwards (all of the list when the resume name is empty), and every storage write
of the run is a write for one of these logs; logs before the first occurrence of
the resume name are neither handed over nor written. -/
theorem C1_eligible_logs_handed_in_order (w : World) (s : State) (R : String)
    (L : List String) (hR : w.GetBinLogName s.c.lastSet = .ok R)
    (hL : w.GetBinLogList = .ok L) (hok : (CollectBinLogs w s).1 = none) :
    managed (CollectBinLogs w s).2.trace
      = managed s.trace ++ (if R = "" then L else L.dropWhile (fun b => decide (b ≠ R))) ∧
    writes (CollectBinLogs w s).2.trace
      = writes s.trace
        ++ (if R = "" then L else L.dropWhile (fun b => decide (b ≠ R))).flatMap
            (archiveWrites w) ∧
    (∀ pre post, L = pre ++ R :: post → R ∉ pre → R ≠ "" →
      managed (CollectBinLogs w s).2.trace = managed s.trace ++ R :: post ∧
      writes (CollectBinLogs w s).2.trace
        = writes s.trace ++ (R :: post).flatMap (archiveWrites w)) := by
  rw [CollectBinLogs_eq_loop w s R L hR hL] at hok ⊢
  obtain ⟨h1, h2, -, -⟩ := loop_ok_post w R (eligible R L) s hok
  have he : eligible R L = if R = "" then L else L.dropWhile (fun b => decide (b ≠ R)) := rfl
  refine ⟨by rw [h1, he], by rw [h2, he], ?_⟩
  intro pre post hsplit hpre hne
  have hs := eligible_split R pre post hpre
  rw [← hsplit] at hs
  simp only [hne, if_false] at hs
  rw [h1, h2, hs]
  exact ⟨rfl, rfl⟩

theorem C1_eligible_logs_handed_in_order_witness :
    managed (CollectBinLogs healthy (fresh "t_a")).2.trace = ["a", "b", "c"] ∧
    managed (CollectBinLogs { healthy with GetBinLogList := .ok ["c", "a", "b"] }
      (fresh "t_a")).2.trace = ["a", "b"] :=
  ⟨(C1_eligible_logs_handed_in_order healthy (fresh "t_a") "a" ["a", "b", "c"] rfl rfl
      (by decide)).1,
   ((C1_eligible_logs_handed_in_order { healthy with GetBinLogList := .ok ["c", "a", "b"] }
      (fresh "t_a") "a" ["c", "a", "b"] rfl rfl (by decide)).2.2 ["c"] ["b"] rfl
      (by decide) (by decide)).1⟩

theorem flatMap_archiveWrites (w : World) (tok : String → String) (L : List String)
    (htok : ∀ b ∈ L, w.GetGTIDSet b = .ok (tok b) ∧ tok b ≠ "") :
    L.flatMap (archiveWrites w) = L.flatMap (fun b =>
      [(b, w.fifo ("/tmp/" ++ b)), (b ++ gtidPostfix, tok b), (lastSetFileName, tok b)]) := by
  induction L with
  | nil => rfl
  | cons b rest ih =>
    have hb := htok b (by simp)
    have hrest := ih (fun x hx => htok x (by simp [hx]))
    simp only [List.flatMap_cons, hrest]
    simp [archiveWrites, tokenOf, hb.1, hb.2]

theorem cursorAfter_snoc {α : Type} (w : World) (f : String → α) (tok : String → String)
    (init : List String) (last : String) (a : α)
    (h : w.GetGTIDSet last = .ok (tok last) ∧ tok last ≠ "") :
    cursorAfter w f (init ++ [last]) a = f (tok last) := by
  simp [cursorAfter, List.foldl_append, tokenOf, h.1, h.2]

/-- C2: a run with an empty resume name over logs that all have non-empty
tokens, in which no step fails, performs exactly these successful storage
writes: for each log in list order the payload under the log's name, then the
token under `<name>-gtid-set`, then the token under `last-binlog-set`; after the
run the stored cursor and the collector's `lastSet` are the token of the last
log. -/
theorem C2_write_sequence (w : World) (s : State) (L : List String) (tok : String → String)
    (hR : w.GetBinLogName s.c.lastSet = .ok "") (hL : w.GetBinLogList = .ok L)
    (htok : ∀ b ∈ L, w.GetGTIDSet b = .ok (tok b) ∧ tok b ≠ "")
    (hok : (CollectBinLogs w s).1 = none) :
    writes (CollectBinLogs w s).2.trace
      = writes s.trace ++ L.flatMap (fun b =>
          [(b, w.fifo ("/tmp/" ++ b)), (b ++ gtidPostfix, tok b), (lastSetFileName, tok b)]) ∧
    (∀ init last, L = init ++ [last] →
      (CollectBinLogs w s).2.objects lastSetFileName = some (tok last) ∧
      (CollectBinLogs w s).2.c.lastSet = tok last) := by
  rw [CollectBinLogs_eq_loop w s "" L hR hL] at hok ⊢
  have he : eligible "" L = L := by simp [eligible]
  rw [he] at hok ⊢
  obtain ⟨-, h2, h3, h4⟩ := loop_ok_post w "" L s hok
  refine ⟨by rw [h2, flatMap_archiveWrites w tok L htok], ?_⟩
  intro init last hsplit
  have hlast := htok last (by simp [hsplit])
  rw [h3, h4, hsplit, cursorAfter_snoc w some tok init last _ hlast,
    cursorAfter_snoc w id tok init last _ hlast]
  exact ⟨rfl, rfl⟩

theorem C2_write_sequence_witness :
    writes (CollectBinLogs healthy (fresh "")).2.trace
      = [("a", "payload of /tmp/a"), ("a-gtid-set", "t_a"), ("last-binlog-set", "t_a"),
         ("b", "payload of /tmp/b"), ("b-gtid-set", "t_b"), ("last-binlog-set", "t_b"),
         ("c", "payload of /tmp/c"), ("c-gtid-set", "t_c"), ("last-binlog-set", "t_c")] ∧
    (CollectBinLogs healthy (fresh "")).2.objects lastSetFileName = some "t_c" :=
  have h := C2_write_sequence healthy (fresh "") ["a", "b", "c"] (fun b => "t_" ++ b) rfl rfl
    (by
      intro b hb
      simp only [List.mem_cons, List.mem_singleton, List.not_mem_nil, or_false] at hb
      rcases hb with rfl | rfl | rfl <;> exact ⟨rfl, by decide⟩)
    (by decide)
  ⟨h.1, (h.2 ["a", "b"] "c" rfl).1⟩

/-- C4: for a log whose token is empty `manageBinlog` returns success and does
nothing but the token lookup: no `PutObject` call, no conduit, no export
process, the collector's fields, the files and the stored objects are unchanged;
the loop then goes on with the next log. -/
theorem C4_empty_token_skipped (w : World) (binlog : String) (s : State)
    (h : w.GetGTIDSet binlog = .ok "") :
    (manageBinlog w binlog s).1 = none ∧
    (manageBinlog w binlog s).2.trace = s.trace ++ [.GetGTIDSet binlog] ∧
    putCalls (manageBinlog w binlog s).2.trace = putCalls s.trace ∧
    (manageBinlog w binlog s).2.c = s.c ∧
    (manageBinlog w binlog s).2.fs = s.fs ∧
    (manageBinlog w binlog s).2.objects = s.objects ∧
    (∀ R rest, CollectBinLogs.loop w R (binlog :: rest) true s
      = CollectBinLogs.loop w R rest true (manageBinlog w binlog s).2) := by
  have hs : manageBinlog w binlog s = (none, s.log (.GetGTIDSet binlog)) := by
    simp [manageBinlog, h, Buffer.len_writeString_zero]
  refine ⟨by rw [hs], by rw [hs]; rfl, ?_, by rw [hs]; rfl, by rw [hs]; rfl, by rw [hs]; rfl, ?_⟩
  · rw [hs]
    simp [State.log, putCalls_append]
    simp [putCalls]
  · intro R rest
    rw [hs]
    exact loop_cons_none w R binlog rest s _ hs

theorem C4_empty_token_skipped_witness :
    (manageBinlog emptyB "b" (fresh "t_a")).1 = none ∧
    (manageBinlog emptyB "b" (fresh "t_a")).2.trace = [.GetGTIDSet "b"] ∧
    (manageBinlog emptyB "b" (fresh "t_a")).2.c.lastSet = "t_a" :=
  have h := C4_empty_token_skipped emptyB "b" (fresh "t_a") rfl
  ⟨h.1, h.2.1, by rw [h.2.2.2.1]; rfl⟩

/-- C3 (as stated, refuted): a single log that bears the name of the cursor
object, `last-binlog-set`, whose sidecar upload fails.  The run returns the
error, but the payload upload that preceded the failure was a successful write
under `last-binlog-set`: the stored cursor no longer holds its value from before
the run (`t_0`), it holds the payload of the failed log. -/
theorem C3_cursor_overwritten_by_payload :
    clash.GetBinLogList = .ok ["last-binlog-set"] ∧
    stepFails clash "last-binlog-set" resumed = true ∧
    (CollectBinLogs clash resumed).1
      = some ⟨"manage binlog: put gtid-set object: storage unavailable", ""⟩ ∧
    resumed.objects lastSetFileName = some "t_0" ∧
    writes (CollectBinLogs clash resumed).2.trace
      = [("last-binlog-set", "payload of /tmp/last-binlog-set")] ∧
    (CollectBinLogs clash resumed).2.objects lastSetFileName
      = some "payload of /tmp/last-binlog-set" :=
  ⟨rfl, by decide, by decide, by decide, by decide, by decide⟩

/-- C3 (amended): when some step of `manageBinlog` fails at an eligible log `b`
(token lookup, conduit setup, extraction, payload upload, conduit removal,
sidecar upload or cursor write; the eligible logs before `b` having been
processed), `manageBinlog` returns an error, `CollectBinLogs` returns it wrapped
and stops in the state `manageBinlog` left: nothing is done for the later logs,
the storage writes made for `b` are at most its payload and its sidecar, and the
collector's `lastSet` holds the token of the last archived log, or its value
from before the run.  When `b` is not itself named `last-binlog-set`, none of
these writes is a write of `last-binlog-set` and the stored cursor, too, holds
the token of the last archived log, or its value from before the run. -/
theorem C3_failure_aborts_run (w : World) (s : State) (R : String) (L done rest : List String)
    (b : String) (hR : w.GetBinLogName s.c.lastSet = .ok R) (hL : w.GetBinLogList = .ok L)
    (hsplit : eligible R L = done ++ b :: rest)
    (hdone : (CollectBinLogs.loop w R done true s).1 = none)
    (hfail : stepFails w b (CollectBinLogs.loop w R done true s).2 = true) :
    (∃ e, (manageBinlog w b (CollectBinLogs.loop w R done true s).2).1 = some e ∧
      (CollectBinLogs w s).1 = some (Wrap e "manage binlog")) ∧
    (CollectBinLogs w s).2 = (manageBinlog w b (CollectBinLogs.loop w R done true s).2).2 ∧
    (∃ ws, writes (CollectBinLogs w s).2.trace
        = writes s.trace ++ done.flatMap (archiveWrites w) ++ ws ∧
      (ws = [] ∨ ws = [(b, w.fifo ("/tmp/" ++ b))] ∨
        ∃ set, w.GetGTIDSet b = .ok set ∧
          ws = [(b, w.fifo ("/tmp/" ++ b)), (b ++ gtidPostfix, set)]) ∧
      (b ≠ lastSetFileName → ∀ x ∈ ws, x.1 ≠ lastSetFileName)) ∧
    (CollectBinLogs w s).2.c.lastSet = cursorAfter w id done s.c.lastSet ∧
    (b ≠ lastSetFileName →
      (CollectBinLogs w s).2.objects lastSetFileName
        = cursorAfter w some done (s.objects lastSetFileName)) := by
  obtain ⟨-, h2, h3, h4⟩ := loop_ok_post w R done s hdone
  rw [CollectBinLogs_eq_loop w s R L hR hL, hsplit, loop_append w R done (b :: rest) s hdone]
  generalize CollectBinLogs.loop w R done true s = r1 at hdone hfail h2 h3 h4 ⊢
  have hfail2 := (stepFails_iff w b r1.2).mp hfail
  obtain ⟨evs, ht, -, -, hcase⟩ := manageBinlog_post w b r1.2
  rcases hm : manageBinlog w b r1.2 with ⟨_ | e, s2⟩
  · rw [hm] at hfail2
    exact absurd rfl hfail2
  · rw [loop_cons_some w R b rest r1.2 s2 e hm]
    rw [hm] at ht hcase
    rcases hcase with ⟨hn, -⟩ | ⟨-, hc, hw, ho, -⟩
    · cases hn
    · simp only [] at ht hc hw ho
      have hnames : b ≠ lastSetFileName → ∀ x ∈ writes evs, x.1 ≠ lastSetFileName := by
        intro hb x hx
        rcases hw with hw | hw | ⟨set, -, hw⟩
        · rw [hw] at hx
          cases hx
        · rw [hw] at hx
          simp only [List.mem_singleton] at hx
          rw [hx]
          exact hb
        · rw [hw] at hx
          simp only [List.mem_cons, List.mem_singleton, List.not_mem_nil, or_false] at hx
          rcases hx with hx | hx
          · rw [hx]
            exact hb
          · rw [hx]
            exact gtid_ne_lastSet b
      refine ⟨⟨e, rfl, rfl⟩, rfl, ⟨writes evs, ?_, hw, hnames⟩, by rw [hc, h3],
        fun hb => by rw [ho hb, h4]⟩
      rw [ht, writes_append, writes_cons_get, h2]

theorem C3_failure_aborts_run_witness :
    (CollectBinLogs (putFailing "b-gtid-set") (fresh "")).1
      = some ⟨"manage binlog: put gtid-set object: storage unavailable", ""⟩ ∧
    (CollectBinLogs (putFailing "b-gtid-set") (fresh "")).2.c.lastSet = "t_a" ∧
    (CollectBinLogs (putFailing "b-gtid-set") (fresh "")).2.objects lastSetFileName
      = some "t_a" :=
  have h := C3_failure_aborts_run (putFailing "b-gtid-set") (fresh "") "" ["a", "b", "c"]
    ["a"] ["c"] "b" rfl rfl (by decide) (by decide) (by decide)
  ⟨by decide, h.2.2.2.1.trans (by decide), (h.2.2.2.2 (by decide)).trans (by decide)⟩

/-- C5 (as stated, refuted): with the cursor `t_a` resolving to log `a` and the
list `[a, b, c]`, the run does call `PutObject` under the name `a`: the log the
cursor resolves to is uploaded again. -/
theorem C5_resume_log_is_uploaded_again :
    healthy.GetBinLogName (fresh "t_a").c.lastSet = .ok "a" ∧
    healthy.GetBinLogList = .ok ["a", "b", "c"] ∧
    (CollectBinLogs healthy (fresh "t_a")).1 = none ∧
    "a" ∈ putCalls (CollectBinLogs healthy (fresh "t_a")).2.trace ∧
    ("a", "payload of /tmp/a") ∈ writes (CollectBinLogs healthy (fresh "t_a")).2.trace :=
  ⟨rfl, rfl, by decide, by decide, by decide⟩

/-- C5 (amended): when the cursor resolves to log `a` and the list is
`[a, b, c]` with non-empty tokens, a run in which no step fails archives `a`,
`b` and `c` in this order, each with payload, sidecar and cursor write: the
resume log `a` itself is uploaded again under its name. -/
theorem C5_resume_is_inclusive (w : World) (s : State) (a b c ta tb tc : String)
    (hR : w.GetBinLogName s.c.lastSet = .ok a) (hL : w.GetBinLogList = .ok [a, b, c])
    (ha : w.GetGTIDSet a = .ok ta ∧ ta ≠ "") (hb : w.GetGTIDSet b = .ok tb ∧ tb ≠ "")
    (hc : w.GetGTIDSet c = .ok tc ∧ tc ≠ "") (hok : (CollectBinLogs w s).1 = none) :
    writes (CollectBinLogs w s).2.trace = writes s.trace ++
      [(a, w.fifo ("/tmp/" ++ a)), (a ++ gtidPostfix, ta), (lastSetFileName, ta),
       (b, w.fifo ("/tmp/" ++ b)), (b ++ gtidPostfix, tb), (lastSetFileName, tb),
       (c, w.fifo ("/tmp/" ++ c)), (c ++ gtidPostfix, tc), (lastSetFileName, tc)] := by
  have he : eligible a [a, b, c] = [a, b, c] := by
    unfold eligible
    by_cases h : a = ""
    · simp [h]
    · simp [h, List.dropWhile]
  rw [CollectBinLogs_eq_loop w s a [a, b, c] hR hL, he] at hok ⊢
  obtain ⟨-, h2, -, -⟩ := loop_ok_post w a [a, b, c] s hok
  rw [h2]
  simp [List.flatMap_cons, archiveWrites, tokenOf, ha.1, ha.2, hb.1, hb.2, hc.1, hc.2]

theorem C5_resume_is_inclusive_witness :
    writes (CollectBinLogs healthy (fresh "t_a")).2.trace
      = [("a", "payload of /tmp/a"), ("a-gtid-set", "t_a"), ("last-binlog-set", "t_a"),
         ("b", "payload of /tmp/b"), ("b-gtid-set", "t_b"), ("last-binlog-set", "t_b"),
         ("c", "payload of /tmp/c"), ("c-gtid-set", "t_c"), ("last-binlog-set", "t_c")] :=
  C5_resume_is_inclusive healthy (fresh "t_a") "a" "b" "c" "t_a" "t_b" "t_c" rfl rfl
    ⟨rfl, by decide⟩ ⟨rfl, by decide⟩ ⟨rfl, by decide⟩ (by decide)

/-- C6 (as stated, refuted): when `GetBinLogName` returns a non-empty name that
is not in the list, the run succeeds without handing any log to
`manageBinlog`. -/
theorem C6_unlisted_resume_name_uploads_nothing :
    purged.GetBinLogName (fresh "t_a").c.lastSet = .ok "binlog.000001" ∧
    purged.GetBinLogList = .ok ["a", "b", "c"] ∧
    "binlog.000001" ∉ ["a", "b", "c"] ∧
    (CollectBinLogs purged (fresh "t_a")).1 = none ∧
    managed (CollectBinLogs purged (fresh "t_a")).2.trace = [] ∧
    (CollectBinLogs purged (fresh "t_a")).2.trace = [] :=
  ⟨rfl, rfl, by decide, by decide, by decide, by decide⟩

/-- C6 (amended): when the name returned by `GetBinLogName` is empty, every log
of the list is eligible: a run in which no step fails hands each log of the
list, in order, to `manageBinlog`. -/
theorem C6_empty_resume_name_all_eligible (w : World) (s : State) (L : List String)
    (hR : w.GetBinLogName s.c.lastSet = .ok "") (hL : w.GetBinLogList = .ok L)
    (hok : (CollectBinLogs w s).1 = none) :
    managed (CollectBinLogs w s).2.trace = managed s.trace ++ L := by
  rw [CollectBinLogs_eq_loop w s "" L hR hL] at hok ⊢
  have he : eligible "" L = L := by simp [eligible]
  rw [he] at hok ⊢
  exact (loop_ok_post w "" L s hok).1

theorem C6_empty_resume_name_all_eligible_witness :
    managed (CollectBinLogs healthy (fresh "unknown")).2.trace = ["a", "b", "c"] :=
  C6_empty_resume_name_all_eligible healthy (fresh "unknown") ["a", "b", "c"] rfl rfl
    (by decide)

/-- C7 (code at the failing input): when `GetObject` itself reports that the
object `last-binlog-set` does not exist (code `NoSuchKey`), `New` returns the
error `get last set content: ...` instead of a collector with an empty
`lastSet`; the same condition reported while the returned stream is read is
tolerated and gives the empty `lastSet`. -/
theorem C7_not_found_from_GetObject_is_fatal :
    New (storageAnswering (.error ⟨"The specified key does not exist.", "NoSuchKey"⟩))
        someConfig
      = .error ⟨"get last set content: The specified key does not exist.", ""⟩ ∧
    New (storageAnswering (.ok ⟨[], some ⟨"The specified key does not exist.", "NoSuchKey"⟩⟩))
        someConfig
      = .ok { lastSet := "", pxcUser := "operator", pxcPass := "secret",
              pxcServiceName := "pxc", bufferSize := 0 } :=
  ⟨rfl, rfl⟩

/-- How `New` reads the cursor, once `storage.NewS3` has returned a storage:
every error of `GetObject` is returned wrapped, whatever its code; a stream that
ends cleanly gives its full content as `lastSet`; a stream whose reading fails
with code `NoSuchKey` gives what was read before the failure; any other failure
of reading is returned wrapped. -/
theorem New_reads_cursor
    (NewS3 : String → String → String → String → String → Bool → Except GoError S3)
    (c : Config) (s3 : S3)
    (h : NewS3 c.S3Endpoint c.S3AccessKeyID c.S3AccessKey c.S3BucketName c.S3Region true
      = .ok s3) :
    (∀ e, s3.GetObject lastSetFileName = .error e →
      New NewS3 c = .error (Wrap e "get last set content")) ∧
    (∀ st, s3.GetObject lastSetFileName = .ok st → st.err = none →
      New NewS3 c = .ok { lastSet := String.mk st.data, pxcUser := c.PXCUser,
                          pxcPass := c.PXCPass, pxcServiceName := c.PXCServiceName,
                          bufferSize := 0 }) ∧
    (∀ st e, s3.GetObject lastSetFileName = .ok st → st.err = some e → e.code = "NoSuchKey" →
      New NewS3 c = .ok { lastSet := String.mk st.data, pxcUser := c.PXCUser,
                          pxcPass := c.PXCPass, pxcServiceName := c.PXCServiceName,
                          bufferSize := 0 }) ∧
    (∀ st e, s3.GetObject lastSetFileName = .ok st → st.err = some e → e.code ≠ "NoSuchKey" →
      New NewS3 c = .error (Wrap e "read object")) := by
  refine ⟨?_, ?_, ?_, ?_⟩
  · intro e he
    simp [New, h, he]
  · intro st hst herr
    simp [New, h, hst, ioutil_ReadAll, herr, Bytes.toString]
  · intro st e hst herr hcode
    simp [New, h, hst, ioutil_ReadAll, herr, hcode, Bytes.toString]
  · intro st e hst herr hcode
    simp [New, h, hst, ioutil_ReadAll, herr, hcode]

/-- C8: for a log with non-empty token `t` that `manageBinlog` processes without
failure, the content written under `<log>-gtid-set` and the content written
under `last-binlog-set` are both exactly `t`: the buffer holds `t` twice after
the second `WriteString`, but the first copy has been read by the sidecar
upload, so the cursor upload reads a single copy. -/
theorem C8_token_written_once (w : World) (binlog : String) (s : State) (set : String)
    (evs : List Event) (hg : w.GetGTIDSet binlog = .ok set) (hne : set ≠ "")
    (hok : (manageBinlog w binlog s).1 = none)
    (ht : (manageBinlog w binlog s).2.trace = s.trace ++ .GetGTIDSet binlog :: evs) :
    writes evs = [(binlog, w.fifo ("/tmp/" ++ binlog)), (binlog ++ gtidPostfix, set),
      (lastSetFileName, set)] ∧
    (manageBinlog w binlog s).2.objects (binlog ++ gtidPostfix) = some set ∧
    (manageBinlog w binlog s).2.objects lastSetFileName = some set ∧
    ((Buffer.zero.WriteString set).ReadAll.2.WriteString set).buf = set.data ++ set.data ∧
    ((Buffer.zero.WriteString set).ReadAll.2.WriteString set).ReadAll.1 = set := by
  obtain ⟨evs0, ht0, -, -, hcase⟩ := manageBinlog_post w binlog s
  have hevs : evs = evs0 := by
    rw [ht] at ht0
    exact List.cons_injective (List.append_cancel_left ht0)
  subst hevs
  rcases hcase with ⟨-, hskip | ⟨set', hg', -, hw, -, -, ho, ho2, -⟩⟩ | ⟨hn, -⟩
  · rw [hg] at hskip
    exact absurd (Except.ok.inj hskip.1) hne
  · rw [hg] at hg'
    obtain rfl := Except.ok.inj hg'
    exact ⟨hw, ho2, ho, by simp [Buffer.zero, Buffer.WriteString, Buffer.ReadAll],
      Buffer.readAll_second set⟩
  · exact absurd hok hn

theorem C8_token_written_once_witness :
    (manageBinlog healthy "a" (fresh "")).2.objects "a-gtid-set" = some "t_a" ∧
    (manageBinlog healthy "a" (fresh "")).2.objects "last-binlog-set" = some "t_a" :=
  have h := C8_token_written_once healthy "a" (fresh "") "t_a"
    ((manageBinlog healthy "a" (fresh "")).2.trace.drop 1) rfl (by decide) (by decide)
    (by decide)
  ⟨h.2.1, h.2.2.1⟩

/-- C9 (code at the failing input): when the export process writes nothing to
its standard error, `manageBinlog` aborts with the error `mysqlbinlog: ` before
any `PutObject` call.  `ioutil.ReadAll` returns an empty slice that is not
`nil`, so the test `stdErr != nil` does not exempt empty output. -/
theorem C9_empty_stderr_aborts :
    ioutil_ReadAll (silent.stderr "any command") = (some [], none) ∧
    (manageBinlog silent "a" (fresh "")).1 = some ⟨"mysqlbinlog: ", ""⟩ ∧
    putCalls (manageBinlog silent "a" (fresh "")).2.trace = [] ∧
    (manageBinlog healthy "a" (fresh "")).1 = none := by
  refine ⟨rfl, ?_, ?_, ?_⟩ <;> decide

/-- C10 (as stated, refuted): when the payload upload fails, `manageBinlog`
returns with the conduit `/tmp/a`, which it has created, still in place. -/
theorem C10_conduit_left_after_failed_upload :
    (manageBinlog (putFailing "a") "a" (fresh "")).1
      = some ⟨"put binlog object: storage unavailable", ""⟩ ∧
    Event.Mkfifo "/tmp/a" true ∈ (manageBinlog (putFailing "a") "a" (fresh "")).2.trace ∧
    (manageBinlog (putFailing "a") "a" (fresh "")).2.fs "/tmp/a" = true := by
  refine ⟨?_, ?_, ?_⟩ <;> decide

/-- C10 (amended): for a log with a non-empty token, (1) when `manageBinlog`
succeeds the path `/tmp/<binlog>` does not exist on return; (2) when it fails
after the conduit was created and before any storage write succeeded (open
failure, stderr-pipe or process-start failure, failure to read or unrecognised
content of the standard error, payload upload failure) the conduit is still in
place on return; (3) a stale file at that path is removed before the conduit is
created. -/
theorem C10_conduit_lifetime (w : World) (binlog : String) (s : State) (set : String)
    (evs : List Event) (hg : w.GetGTIDSet binlog = .ok set) (hne : set ≠ "")
    (ht : (manageBinlog w binlog s).2.trace = s.trace ++ .GetGTIDSet binlog :: evs) :
    ((manageBinlog w binlog s).1 = none →
      (manageBinlog w binlog s).2.fs ("/tmp/" ++ binlog) = false) ∧
    ((manageBinlog w binlog s).1 ≠ none → Event.Mkfifo ("/tmp/" ++ binlog) true ∈ evs →
      writes evs = [] → (manageBinlog w binlog s).2.fs ("/tmp/" ++ binlog) = true) ∧
    (Event.Mkfifo ("/tmp/" ++ binlog) true ∈ evs → s.fs ("/tmp/" ++ binlog) = true →
      ∃ rest, evs = .Remove ("/tmp/" ++ binlog) true
        :: .Mkfifo ("/tmp/" ++ binlog) true :: rest) := by
  obtain ⟨evs0, ht0, -, hstale, hcase⟩ := manageBinlog_post w binlog s
  have hevs : evs = evs0 := by
    rw [ht] at ht0
    exact List.cons_injective (List.append_cancel_left ht0)
  subst hevs
  refine ⟨?_, ?_, hstale⟩
  · intro hok
    rcases hcase with ⟨-, hskip | ⟨set', -, -, -, -, -, -, -, hfs⟩⟩ | ⟨hn, -⟩
    · rw [hg] at hskip
      exact absurd (Except.ok.inj hskip.1) hne
    · exact hfs
    · exact absurd hok hn
  · intro hfail hmk hw
    rcases hcase with ⟨hn, -⟩ | ⟨-, -, -, -, hfs⟩
    · exact absurd hn hfail
    · exact hfs hmk hw

theorem C10_conduit_lifetime_witness :
    (manageBinlog healthy "a" { fresh "" with fs := fun p => decide (p = "/tmp/a") }).2.fs
      "/tmp/a" = false ∧
    (manageBinlog (putFailing "a") "a" (fresh "")).2.fs "/tmp/a" = true :=
  ⟨(C10_conduit_lifetime healthy "a" { fresh "" with fs := fun p => decide (p = "/tmp/a") }
      "t_a" ((manageBinlog healthy "a"
        { fresh "" with fs := fun p => decide (p = "/tmp/a") }).2.trace.drop 1)
      rfl (by decide) (by decide)).1 (by decide),
   (C10_conduit_lifetime (putFailing "a") "a" (fresh "") "t_a"
      ((manageBinlog (putFailing "a") "a" (fresh "")).2.trace.drop 1)
      rfl (by decide) (by decide)).2.1 (by decide) (by decide) (by decide)⟩

end collector
